import Mathlib

/-!
Verification of the Puppetmaster host driver (`main.cpp`) against its
natural-language specification.

The driver builds a workload of transactions — either synthetically
(no command-line arguments) or by loading CSV-like files (one path per
argument) — and then submits each transaction to the FPGA scheduler
with its positional index as id.

Shallow embedding notes:
* `Object` models the Connectal-generated C struct with fields
  `valid`, `write`, `object`; the two flag fields are modelled as `Bool`
  (the source stores 0/1), the address as `Nat`.
* A transaction is the `std::array<Object, 16>` of the source, modelled
  as a `List Object` of length 16.
* The source declares `std::array<Object, numObjects> objs;` without an
  initializer, so the slots initially hold indeterminate memory.  The
  embedding makes this explicit: every workload-building function takes
  a parameter `init : Nat → Object` giving the pre-existing contents of
  the fresh array, and slots never written by the source keep `init`.
* `std::stoul(value)` (base 10) is library code not present in the
  repository; it is modelled from its documented semantics: skip
  C-locale whitespace, an optional single sign, then a maximal run of
  decimal digits (none ⇒ `invalid_argument`); a value above
  `ULONG_MAX = 2^64 - 1` ⇒ `out_of_range`; a `-` sign negates the value
  modulo 2^64.
* Writing `objs[k]` for `k ≥ 16` is undefined behaviour in the source
  (it can only arise for `objSetSize > 8`, which the program never
  passes); the embedding models such writes as dropped (`List.set` out
  of range), i.e. silent truncation.
-/

/-- The Connectal `Object` struct: one object access slot of a transaction. -/
structure Object where
  valid : Bool
  write : Bool
  object : Nat
deriving DecidableEq, Repr

/-- `constexpr std::size_t numObjects = 16;` — the slot capacity. -/
def numObjects : Nat := 16

/-- One transaction: the `std::array<Object, numObjects>` of the source. -/
abbrev Txn := List Object

/-- The fresh slot array `std::array<Object, numObjects> objs;`:
default-initialized, so it holds the indeterminate pre-existing memory
contents, given by the parameter `init`. -/
def freshObjs (init : Nat → Object) : Txn :=
  (List.range numObjects).map init

/-! ### Synthetic workload generator (`main.cpp` lines 60–82) -/

/-- The write-target object stored at odd slot `2j+1` by the generator:
the four-way conditional of `main.cpp` lines 75–78. -/
def writeTarget (objSetSize i j : Nat) : Nat :=
  if i % 4 = 0 then objSetSize * i * 2 + j * 2 + 1
  else if i % 4 = 1 then objSetSize * (i - i % 2) * 2 + j * 2 + 1
  else if i % 4 = 2 then objSetSize * (i % 2) * 2 + j * 2 + 1
  else objSetSize * 2 + j * 2 + 1

/-- The inner loop body of the generator: for pair index `j`, store a
read access at slot `2j` and a write access at slot `2j+1`
(`main.cpp` lines 67–79). -/
def synthPair (objSetSize i : Nat) (objs : Txn) (j : Nat) : Txn :=
  (objs.set (2 * j) ⟨true, false, objSetSize * i * 2 + j * 2⟩).set (2 * j + 1)
    ⟨true, true, writeTarget objSetSize i j⟩

/-- One synthetic transaction: the `for (unsigned j = 0; j < objSetSize; j++)`
loop of `main.cpp` lines 66–80, starting from the indeterminate fresh array. -/
def synthTxn (objSetSize i : Nat) (init : Nat → Object) : Txn :=
  (List.range objSetSize).foldl (synthPair objSetSize i) (freshObjs init)

/-- The full synthetic workload: the
`for (unsigned i = 0; i < numTests * maxScheduledObjects; i++)` loop of
`main.cpp` lines 64–82. -/
def synthTests (numTests maxScheduledObjects objSetSize : Nat)
    (init : Nat → Object) : List Txn :=
  (List.range (numTests * maxScheduledObjects)).map
    (fun i => synthTxn objSetSize i init)

/-- The default workload built when no files are given
(`numTests = 4`, `maxScheduledObjects = 8`, `objSetSize = numObjects / 2`). -/
def defaultTests (init : Nat → Object) : List Txn :=
  synthTests 4 8 (numObjects / 2) init

/-! ### `std::stoul` model -/

/-- The two exceptions `std::stoul` can throw. -/
inductive StoulError where
  | invalidArgument
  | outOfRange
deriving DecidableEq, Repr

/-- `ULONG_MAX` on the 64-bit target. -/
def ULONG_MAX : Nat := 2 ^ 64 - 1

/-- C-locale `isspace`. -/
def isCSpace (c : Char) : Bool :=
  c = ' ' || c = '\t' || c = '\n' || c = '\x0b' || c = '\x0c' || c = '\r'

/-- The character sequence remaining after `strtoul` skips leading
whitespace and an optional single `+`/`-` sign, paired with whether the
sign was `-`. -/
def stoulBody (s : String) : Bool × List Char :=
  match s.toList.dropWhile isCSpace with
  | '-' :: rest => (true, rest)
  | '+' :: rest => (false, rest)
  | cs => (false, cs)

/-- The maximal leading run of decimal digits that `strtoul` converts. -/
def stoulDigits (s : String) : List Char :=
  (stoulBody s).2.takeWhile Char.isDigit

/-- The numeric value of a digit run. -/
def digitsVal (ds : List Char) : Nat :=
  ds.foldl (fun acc c => acc * 10 + (c.toNat - '0'.toNat)) 0

/-- Model of `std::stoul(value)` with the default base 10, from its
documented semantics (library code, not part of the repository):
no leading digit after whitespace/sign ⇒ `invalid_argument`; converted
magnitude above `ULONG_MAX` ⇒ `out_of_range`; a `-` sign negates the
value modulo 2^64. -/
def stoul (s : String) : Except StoulError Nat :=
  if (stoulDigits s).isEmpty then .error .invalidArgument
  else if ULONG_MAX < digitsVal (stoulDigits s) then .error .outOfRange
  else .ok (if (stoulBody s).1
            then (2 ^ 64 - digitsVal (stoulDigits s) % 2 ^ 64) % 2 ^ 64
            else digitsVal (stoulDigits s))

/-! ### Structured-file loader (`main.cpp` lines 85–149) -/

/-- The four fatal conditions of the loader, in source order of their
`return` statements. -/
inductive LoadError where
  | fileNotFound
  | missingHeader
  | malformedAddress
  | addressOutOfRange
deriving DecidableEq, Repr

/-- The process exit code for each fatal condition
(`return 1/2/3/4` in `main.cpp`). -/
def exitCode : LoadError → Nat
  | .fileNotFound => 1
  | .missingHeader => 2
  | .malformedAddress => 3
  | .addressOutOfRange => 4

/-- One `std::getline(buffer, tok, ',')` round and its continuation:
`acc` holds the (reversed) characters of the token being read.  At EOF
the current token ends; after a delimiter a fresh `getline` starts,
which fails straight away (producing no token) when the input is
exhausted. -/
def getlineAux : List Char → List Char → List String
  | [], acc => [String.mk acc.reverse]
  | ',' :: rest, acc =>
    String.mk acc.reverse :: (if rest.isEmpty then [] else getlineAux rest [])
  | c :: rest, acc => getlineAux rest (c :: acc)

/-- Comma-splitting via repeated `std::getline(buffer, tok, ',')`:
an empty string yields no tokens, and a trailing delimiter does not
produce a final empty token (the last `getline` hits EOF and fails). -/
def getlineSplit (s : String) : List String :=
  if s.toList.isEmpty then [] else getlineAux s.toList []

/-- `p` is a prefix of `c`, character by character. -/
def isPrefixChars : List Char → List Char → Bool
  | [], _ => true
  | _ :: _, [] => false
  | p :: ps, c :: cs => p = c && isPrefixChars ps cs

/-- `s.find(pre) == 0`: the label `s` begins with `pre`. -/
def startsWithStr (s pre : String) : Bool := isPrefixChars pre.toList s.toList

/-- `set_contains(readIndices, i)`: column `i` was inserted into
`readIndices`, i.e. the `i`-th header label begins with `"Read object"`
(`main.cpp` lines 110–111). -/
def isReadCol (labels : List String) (i : Nat) : Bool :=
  startsWithStr (labels.getD i "") "Read object"

/-- `set_contains(writeIndices, i)`: column `i` was inserted into
`writeIndices`, i.e. the `i`-th header label does not begin with
`"Read object"` but begins with `"Written object"` (the `else if` of
`main.cpp` lines 112–113). -/
def isWriteCol (labels : List String) (i : Nat) : Bool :=
  !startsWithStr (labels.getD i "") "Read object"
    && startsWithStr (labels.getD i "") "Written object"

/-- The body of the per-line token loop (`main.cpp` lines 125–145),
processing the remaining `(column index, cell)` pairs: a non-empty cell
at a read- or write-marked column is parsed with `stoul` (errors abort
the whole run) and stored as a valid slot; any other cell is skipped. -/
def fillSlots (labels : List String) :
    List (Nat × String) → Txn → Except LoadError Txn
  | [], objs => .ok objs
  | (i, value) :: rest, objs =>
    if value ≠ "" ∧ (isReadCol labels i || isWriteCol labels i) then
      match stoul value with
      | .error .invalidArgument => .error .malformedAddress
      | .error .outOfRange => .error .addressOutOfRange
      | .ok address =>
        fillSlots labels rest (objs.set i ⟨true, isWriteCol labels i, address⟩)
    else fillSlots labels rest objs

/-- Parse one content line given the tokenised cells: only the first
`numObjects` tokens are considered (`i < numObjects &&` in the loop
condition), starting from the indeterminate fresh array. -/
def parseTokens (labels : List String) (tokens : List String)
    (init : Nat → Object) : Except LoadError Txn :=
  fillSlots labels (tokens.take numObjects).enum (freshObjs init)

/-- Parse one content line (`main.cpp` lines 119–146). -/
def parseLine (labels : List String) (line : String)
    (init : Nat → Object) : Except LoadError Txn :=
  parseTokens labels (getlineSplit line) init

/-- An opened input file, as the sequence of lines `std::getline`
yields from it; a file with no characters yields no lines. -/
structure FileRep where
  lines : List String
deriving DecidableEq, Repr

/-- Load one opened file (`main.cpp` lines 98–147): the first line is
the header (its absence is `MissingHeader`); every subsequent line
produces one transaction, in file order. -/
def loadFile (f : FileRep) (init : Nat → Object) :
    Except LoadError (List Txn) :=
  match f.lines with
  | [] => .error .missingHeader
  | header :: content =>
    content.mapM (fun line => parseLine (getlineSplit header) line init)

/-- Process one command-line argument: a path that cannot be opened
(`none`) is `FileNotFound`; otherwise load the opened file. -/
def loadArg (init : Nat → Object) : Option FileRep → Except LoadError (List Txn)
  | none => .error .fileNotFound
  | some f => loadFile f init

/-- Load all command-line files in argument order (`main.cpp` lines
85–149), concatenating their transactions.  The first error aborts the
run. -/
def loadAll (args : List (Option FileRep)) (init : Nat → Object) :
    Except LoadError (List Txn) :=
  (args.mapM (loadArg init)).map List.flatten

/-! ### Dispatcher and driver (`main.cpp` lines 152–158) -/

/-- The submission loop: transaction `i` of the built workload is passed
to `enqueueTransaction` with id `i`. -/
def dispatch (tests : List Txn) : List (Nat × Txn) :=
  tests.enum

/-- The whole driver run, with the fresh-array contents `init` made
explicit: no arguments ⇒ synthetic workload; otherwise load the files.
Result: the exit code if a fatal condition occurred (`some c`, with no
submissions), else `none` together with the full submission sequence. -/
def mainRun (args : List (Option FileRep)) (init : Nat → Object) :
    Option Nat × List (Nat × Txn) :=
  match args with
  | [] => (none, dispatch (defaultTests init))
  | _ =>
    match loadAll args init with
    | .error e => (some (exitCode e), [])
    | .ok tests => (none, dispatch tests)

/-! ### Per-array indeterminate memory

The source declares one fresh `std::array<Object, numObjects> objs;`
per content line (`main.cpp` line 120) and per generator iteration
(line 65), so the pre-existing contents of these arrays are
*independently* indeterminate.  The `…Mem` variants below make that
independence explicit by giving every fresh array its own memory
function; the single-`init` definitions above are exactly the special
case of constant memory (`loadFileMem_const`, `loadAllMem_const`,
`mainRunMem_const`). -/

/-- Load one opened file, with `mem m` the indeterminate pre-existing
contents of the fresh array declared for the `m`-th content line. -/
def loadFileMem (f : FileRep) (mem : Nat → Nat → Object) :
    Except LoadError (List Txn) :=
  match f.lines with
  | [] => .error .missingHeader
  | header :: content =>
    content.enum.mapM
      (fun p => parseLine (getlineSplit header) p.2 (mem p.1))

/-- Process one command-line argument with per-line memory. -/
def loadArgMem (mem : Nat → Nat → Object) :
    Option FileRep → Except LoadError (List Txn)
  | none => .error .fileNotFound
  | some f => loadFileMem f mem

/-- Load all command-line files with per-argument, per-line memory:
`mem k m` is the fresh-array contents for line `m` of argument `k`. -/
def loadAllMem (args : List (Option FileRep))
    (mem : Nat → Nat → Nat → Object) : Except LoadError (List Txn) :=
  (args.enum.mapM (fun p => loadArgMem (mem p.1) p.2)).map List.flatten

/-- The default synthetic workload with per-iteration memory: each
generator iteration declares its own fresh array (`main.cpp` line 65). -/
def defaultTestsMem (mem : Nat → Nat → Object) : List Txn :=
  (List.range (4 * 8)).map (fun i => synthTxn (numObjects / 2) i (mem i))

/-- The driver run with the independence of the fresh arrays'
indeterminate contents made explicit: `mem k m` is the pre-existing
memory of the array built for the `m`-th transaction of argument `k`
(in the no-argument branch, `mem 0 i` for generator iteration `i`). -/
def mainRunMem (args : List (Option FileRep))
    (mem : Nat → Nat → Nat → Object) : Option Nat × List (Nat × Txn) :=
  match args with
  | [] => (none, dispatch (defaultTestsMem (mem 0)))
  | _ =>
    match loadAllMem args mem with
    | .error e => (some (exitCode e), [])
    | .ok tests => (none, dispatch tests)

/-! ### Concrete memory contents used in witnesses -/

/-- All-zero pre-existing memory (one possible content of the
uninitialized `objs` array). -/
def zeroMem : Nat → Object := fun _ => ⟨false, false, 0⟩

/-- Nonzero pre-existing memory: every slot looks like a valid write
access (another possible content of the uninitialized array). -/
def garbageMem : Nat → Object := fun k => ⟨true, true, 100 + k⟩

/-- Default `Object` used with `List.getD`. -/
def dObj : Object := ⟨false, false, 0⟩

/-- Independently resolved indeterminate memory for a two-argument run:
the fresh arrays of the first file's lines happen to hold zeros, those
of the second file's lines happen to hold garbage.  Both are legitimate
contents of uninitialized stack memory. -/
def memIndep : Nat → Nat → Nat → Object :=
  fun k _ => if k = 0 then zeroMem else garbageMem

/-! ### Generic list helpers -/

theorem getD_set_self {α : Type} (l : List α) {n : Nat} (a d : α)
    (h : n < l.length) : (l.set n a).getD n d = a := by
  simp [List.getD_eq_getElem?_getD, List.getElem?_set_self h]

theorem getD_set_ne {α : Type} (l : List α) {m n : Nat} (a d : α)
    (h : m ≠ n) : (l.set m a).getD n d = l.getD n d := by
  simp [List.getD_eq_getElem?_getD, List.getElem?_set_ne h]

theorem getD_map_range {α : Type} (f : Nat → α) {n i : Nat} (d : α)
    (h : i < n) : ((List.range n).map f).getD i d = f i := by
  simp [List.getD_eq_getElem?_getD, List.getElem?_map, List.getElem?_range h]

theorem freshObjs_length (init : Nat → Object) : (freshObjs init).length = 16 := by
  simp [freshObjs, numObjects]

theorem freshObjs_getD (init : Nat → Object) {k : Nat} (d : Object)
    (h : k < 16) : (freshObjs init).getD k d = init k :=
  getD_map_range init d h

/-! ### Generator characterization -/

theorem synthFold_length (o i : Nat) :
    ∀ (n : Nat) (objs : Txn),
      ((List.range n).foldl (synthPair o i) objs).length = objs.length := by
  intro n
  induction n with
  | zero => intro objs; rfl
  | succ n ih =>
    intro objs
    rw [List.range_succ, List.foldl_append]
    simp [synthPair, ih]

theorem synthTxn_length (o i : Nat) (init : Nat → Object) :
    (synthTxn o i init).length = 16 := by
  rw [synthTxn, synthFold_length, freshObjs_length]

/-- Slots at positions `≥ 2n` are untouched by the first `n` pair
iterations of the generator loop. -/
theorem synthFold_getD_ge (o i : Nat) (d : Object) :
    ∀ (n k : Nat) (objs : Txn), 2 * n ≤ k →
      ((List.range n).foldl (synthPair o i) objs).getD k d = objs.getD k d := by
  intro n
  induction n with
  | zero => intro k objs _; rfl
  | succ n ih =>
    intro k objs hk
    rw [List.range_succ, List.foldl_append]
    simp only [List.foldl_cons, List.foldl_nil]
    rw [synthPair, getD_set_ne _ _ _ (by omega), getD_set_ne _ _ _ (by omega)]
    exact ih k objs (by omega)

/-- After the first `n` pair iterations, pair `j < n` holds the read
access at slot `2j` and the write access at slot `2j+1`. -/
theorem synthFold_getD_pair (o i : Nat) (d : Object) :
    ∀ (n j : Nat) (objs : Txn), j < n → 2 * j + 1 < objs.length →
      ((List.range n).foldl (synthPair o i) objs).getD (2 * j) d
          = ⟨true, false, o * i * 2 + j * 2⟩
        ∧ ((List.range n).foldl (synthPair o i) objs).getD (2 * j + 1) d
          = ⟨true, true, writeTarget o i j⟩ := by
  intro n
  induction n with
  | zero => intro j objs hj; omega
  | succ n ih =>
    intro j objs hj hlen
    rw [List.range_succ, List.foldl_append]
    simp only [List.foldl_cons, List.foldl_nil]
    rcases Nat.lt_or_ge j n with hlt | hge
    · have h := ih j objs hlt hlen
      rw [synthPair, getD_set_ne _ _ _ (by omega), getD_set_ne _ _ _ (by omega),
        getD_set_ne _ _ _ (by omega), getD_set_ne _ _ _ (by omega)]
      exact h
    · have hj' : j = n := by omega
      subst hj'
      have hlen' : 2 * j + 1 <
          (((List.range j).foldl (synthPair o i) objs).set (2 * j)
            ⟨true, false, o * i * 2 + j * 2⟩).length := by
        rw [List.length_set, synthFold_length]; exact hlen
      constructor
      · rw [synthPair, getD_set_ne _ _ _ (by omega),
          getD_set_self _ _ _ (by rw [synthFold_length]; omega)]
      · rw [synthPair, getD_set_self _ _ _ hlen']

/-- **C1** — In the synthetic generator, for every transaction index
`i < numTests * maxScheduledObjects = 32` and pair index
`j < objSetSize = 8`, slot `2j` is a valid read access to object
`objSetSize*i*2 + j*2`, and slot `2j+1` is a valid write access whose
object is selected by `i mod 4`: for `i mod 4 = 0` it is
`objSetSize*i*2 + j*2 + 1`; for `i mod 4 = 1` it is
`objSetSize*(i-1)*2 + j*2 + 1`; for `i mod 4 = 2` it is
`objSetSize*(i mod 2)*2 + j*2 + 1`; for `i mod 4 = 3` it is
`objSetSize*2 + j*2 + 1`. -/
theorem c1_synthetic_slot_formulas (init : Nat → Object) (i j : Nat)
    (hi : i < 32) (hj : j < 8) :
    ((defaultTests init).getD i []).getD (2 * j) dObj
        = ⟨true, false, 8 * i * 2 + j * 2⟩
    ∧ (i % 4 = 0 → ((defaultTests init).getD i []).getD (2 * j + 1) dObj
        = ⟨true, true, 8 * i * 2 + j * 2 + 1⟩)
    ∧ (i % 4 = 1 → ((defaultTests init).getD i []).getD (2 * j + 1) dObj
        = ⟨true, true, 8 * (i - 1) * 2 + j * 2 + 1⟩)
    ∧ (i % 4 = 2 → ((defaultTests init).getD i []).getD (2 * j + 1) dObj
        = ⟨true, true, 8 * (i % 2) * 2 + j * 2 + 1⟩)
    ∧ (i % 4 = 3 → ((defaultTests init).getD i []).getD (2 * j + 1) dObj
        = ⟨true, true, 8 * 2 + j * 2 + 1⟩) := by
  have hd : (defaultTests init).getD i [] = synthTxn 8 i init := by
    show ((List.range (4 * 8)).map (fun i => synthTxn 8 i init)).getD i []
      = synthTxn 8 i init
    exact getD_map_range _ _ (by omega)
  have hlen : 2 * j + 1 < (freshObjs init).length := by
    rw [freshObjs_length]; omega
  have hpair := synthFold_getD_pair 8 i dObj 8 j (freshObjs init) hj hlen
  rw [hd, synthTxn]
  refine ⟨hpair.1, ?_, ?_, ?_, ?_⟩
  · intro h0
    rw [hpair.2, writeTarget, if_pos h0]
  · intro h1
    have h2 : i % 2 = 1 := by omega
    rw [hpair.2, writeTarget, if_neg (by omega), if_pos h1, h2]
  · intro h2
    rw [hpair.2, writeTarget, if_neg (by omega), if_neg (by omega), if_pos h2]
  · intro h3
    rw [hpair.2, writeTarget, if_neg (by omega), if_neg (by omega),
      if_neg (by omega)]

/-- Witness for C1 at `i = 5`, `j = 3` (the `i mod 4 = 1` branch). -/
theorem c1_synthetic_slot_formulas_witness :
    ((defaultTests zeroMem).getD 5 []).getD (2 * 3) dObj
        = ⟨true, false, 8 * 5 * 2 + 3 * 2⟩
    ∧ ((defaultTests zeroMem).getD 5 []).getD (2 * 3 + 1) dObj
        = ⟨true, true, 8 * (5 - 1) * 2 + 3 * 2 + 1⟩ :=
  ⟨(c1_synthetic_slot_formulas zeroMem 5 3 (by omega) (by omega)).1,
   (c1_synthetic_slot_formulas zeroMem 5 3 (by omega) (by omega)).2.2.1 (by omega)⟩

/-- **C3** — The synthetic generator produces exactly
`numTests * maxScheduledObjects = 4 * 8 = 32` transactions, and every
generated transaction has exactly `2 * objSetSize = 16` valid slots and
`16 - 2 * objSetSize = 0` invalid slots. -/
theorem c3_synthetic_counts (init : Nat → Object) :
    (defaultTests init).length = 4 * 8
    ∧ ∀ i, i < 4 * 8 →
        ((defaultTests init).getD i []).length = 16
        ∧ ((defaultTests init).getD i []).countP (fun o => o.valid) = 2 * 8
        ∧ ((defaultTests init).getD i []).countP (fun o => !o.valid)
            = 16 - 2 * 8 := by
  constructor
  · show ((List.range (4 * 8)).map (fun i => synthTxn 8 i init)).length = 4 * 8
    simp
  intro i hi
  have hd : (defaultTests init).getD i [] = synthTxn 8 i init := by
    show ((List.range (4 * 8)).map (fun i => synthTxn 8 i init)).getD i []
      = synthTxn 8 i init
    exact getD_map_range _ _ hi
  have hlen : (synthTxn 8 i init).length = 16 := synthTxn_length 8 i init
  have hvalid : ∀ o ∈ synthTxn 8 i init, o.valid = true := by
    intro o ho
    obtain ⟨k, hk, hko⟩ := List.mem_iff_getElem.mp ho
    have hk16 : k < 16 := by rw [hlen] at hk; exact hk
    have hko' : (synthTxn 8 i init).getD k dObj = o := by
      rw [List.getD_eq_getElem _ _ hk]; exact hko
    have hsplit : k = 2 * (k / 2) ∨ k = 2 * (k / 2) + 1 := by omega
    have hj : k / 2 < 8 := by omega
    have hpair := synthFold_getD_pair 8 i dObj 8 (k / 2) (freshObjs init) hj
      (by rw [freshObjs_length]; omega)
    have he : synthTxn 8 i init
        = (List.range 8).foldl (synthPair 8 i) (freshObjs init) := rfl
    rw [← he] at hpair
    rw [← hko']
    rcases hsplit with hsp | hsp
    · rw [hsp, hpair.1]
    · rw [hsp, hpair.2]
  refine ⟨by rw [hd]; exact hlen, ?_, ?_⟩
  · rw [hd]
    have : List.countP (fun o => o.valid) (synthTxn 8 i init)
        = (synthTxn 8 i init).length := List.countP_eq_length.mpr hvalid
    rw [this, hlen]
  · rw [hd]
    have : List.countP (fun o => !o.valid) (synthTxn 8 i init) = 0 :=
      List.countP_eq_zero.mpr (by
        intro o ho
        rw [hvalid o ho]
        simp)
    rw [this]

/-- Witness for C3 at transaction index 0. -/
theorem c3_synthetic_counts_witness :
    (defaultTests zeroMem).length = 4 * 8
    ∧ ((defaultTests zeroMem).getD 0 []).countP (fun o => o.valid) = 2 * 8 :=
  ⟨(c3_synthetic_counts zeroMem).1,
   ((c3_synthetic_counts zeroMem).2 0 (by omega)).2.1⟩

/-- **C4** — The dispatch loop submits every transaction of the built
workload exactly once, in sequence order, with id equal to its 0-based
positional index; the ids are `0, 1, …, n-1`, hence unique and strictly
increasing from 0. -/
theorem c4_dispatch_ids (tests : List Txn) :
    (dispatch tests).map Prod.fst = List.range tests.length
    ∧ (dispatch tests).map Prod.snd = tests
    ∧ ((dispatch tests).map Prod.fst).Pairwise (· < ·) := by
  refine ⟨List.enum_map_fst tests, List.enum_map_snd tests, ?_⟩
  show (tests.enum.map Prod.fst).Pairwise (· < ·)
  rw [List.enum_map_fst]
  exact List.pairwise_lt_range _

/-- **C9 (counterexample)** — With `objSetSize = 9 > 8` the generator
does not reject: it still builds all `numTests * maxScheduledObjects`
transactions, each truncated to the 16-slot capacity (the `j = 8` pair,
whose slot indices 16 and 17 exceed capacity, is silently lost). -/
theorem c9_counterexample_no_fail_fast :
    (synthTests 4 8 9 zeroMem).length = 4 * 8
    ∧ ((synthTests 4 8 9 zeroMem).getD 0 []).length = 16
    ∧ (synthTests 4 8 9 zeroMem).getD 0 [] ≠ [] := by
  refine ⟨by simp [synthTests], ?_, ?_⟩ <;> decide

/-- **C9 (amended)** — The generator contains no precondition check on
`objSetSize`: for every value of the parameter (in the program it is
hard-coded to `numObjects / 2 = 8`, so `objSetSize > 8` never arises)
it builds all `numTests * maxScheduledObjects` transactions of capacity
16, with out-of-capacity slot writes lost rather than failing fast. -/
theorem c9_no_precondition_check (objSetSize : Nat) (init : Nat → Object) :
    (synthTests 4 8 objSetSize init).length = 4 * 8
    ∧ (∀ t ∈ synthTests 4 8 objSetSize init, t.length = 16)
    ∧ numObjects / 2 = 8 := by
  refine ⟨by simp [synthTests], ?_, rfl⟩
  intro t ht
  rw [synthTests, List.mem_map] at ht
  obtain ⟨i, _, rfl⟩ := ht
  exact synthTxn_length objSetSize i init

/-- Witness for the amended C9 at `objSetSize = 9`. -/
theorem c9_no_precondition_check_witness :
    (synthTests 4 8 9 zeroMem).length = 4 * 8
    ∧ ((synthTests 4 8 9 zeroMem).getD 0 []).length = 16 :=
  ⟨(c9_no_precondition_check 9 zeroMem).1,
   (c9_no_precondition_check 9 zeroMem).2.1
     ((synthTests 4 8 9 zeroMem).getD 0 []) (by decide)⟩

/-! ### Except and mapM helpers -/

theorem exceptBind_ok {ε α β : Type} {x : Except ε α} {g : α → Except ε β}
    {y : β} : x >>= g = .ok y ↔ ∃ a, x = .ok a ∧ g a = .ok y := by
  cases x <;> simp [Bind.bind, Except.bind]

theorem exceptPure_ok {ε β : Type} {b y : β} :
    (pure b : Except ε β) = .ok y ↔ b = y := by
  simp [pure, Except.pure]

/-- An `Except`-valued `mapM` that succeeds maps each element in place:
the result has the same length and its `m`-th entry is the (successful)
image of the `m`-th input. -/
theorem mapM_ok_char {ε α β : Type} (f : α → Except ε β) :
    ∀ (xs : List α) (ys : List β), xs.mapM f = .ok ys →
      ys.length = xs.length
      ∧ ∀ (m : Nat) (d : α) (e : β), m < xs.length →
          f (xs.getD m d) = .ok (ys.getD m e) := by
  intro xs
  induction xs with
  | nil =>
    intro ys h
    have h0 : (pure [] : Except ε (List β)) = .ok ys := h
    rw [exceptPure_ok] at h0
    subst h0
    exact ⟨rfl, fun m d e hm => absurd hm (by simp)⟩
  | cons x xs ih =>
    intro ys h
    rw [List.mapM_cons] at h
    rw [exceptBind_ok] at h
    obtain ⟨y, hy, h⟩ := h
    rw [exceptBind_ok] at h
    obtain ⟨ys', hys', h⟩ := h
    rw [exceptPure_ok] at h
    subst h
    obtain ⟨hlen, hm⟩ := ih ys' hys'
    refine ⟨by simp [hlen], ?_⟩
    intro m d e hmlt
    cases m with
    | zero => exact hy
    | succ m => exact hm m d e (by simpa using hmlt)

/-! ### fillSlots characterization -/

theorem fillSlots_length (labels : List String) :
    ∀ (ps : List (Nat × String)) (objs t : Txn),
      fillSlots labels ps objs = .ok t → t.length = objs.length := by
  intro ps
  induction ps with
  | nil =>
    intro objs t h
    cases h
    rfl
  | cons p rest ih =>
    intro objs t h
    obtain ⟨i, v⟩ := p
    simp only [fillSlots] at h
    split at h
    · cases hs : stoul v with
      | error e =>
        rw [hs] at h
        cases e <;> simp at h
      | ok a =>
        rw [hs] at h
        have := ih _ _ h
        rw [this, List.length_set]
    · exact ih _ _ h

theorem fillSlots_append (labels : List String) :
    ∀ (ps qs : List (Nat × String)) (objs : Txn),
      fillSlots labels (ps ++ qs) objs =
        match fillSlots labels ps objs with
        | .ok t => fillSlots labels qs t
        | .error e => .error e := by
  intro ps
  induction ps with
  | nil => intro qs objs; rfl
  | cons p rest ih =>
    intro qs objs
    obtain ⟨i, v⟩ := p
    simp only [List.cons_append, fillSlots]
    split
    · cases hs : stoul v with
      | error e => cases e <;> rfl
      | ok a => exact ih qs _
    · exact ih qs objs

/-- If every pair with first component `k` in `ps` fails the
populate-condition (empty cell or unmarked column), slot `k` is
unchanged by the loop. -/
theorem fillSlots_skip_getD (labels : List String) (k : Nat) (d : Object) :
    ∀ (ps : List (Nat × String)) (objs t : Txn),
      fillSlots labels ps objs = .ok t →
      (∀ v, (k, v) ∈ ps →
        ¬(v ≠ "" ∧ (isReadCol labels k || isWriteCol labels k))) →
      t.getD k d = objs.getD k d := by
  intro ps
  induction ps with
  | nil =>
    intro objs t h _
    cases h
    rfl
  | cons p rest ih =>
    intro objs t h hskip
    obtain ⟨i, v⟩ := p
    simp only [fillSlots] at h
    by_cases hik : i = k
    · subst hik
      rw [if_neg (hskip v (List.mem_cons_self _ _))] at h
      exact ih _ _ h (fun w hw => hskip w (List.mem_cons_of_mem _ hw))
    · split at h
      · cases hs : stoul v with
        | error e =>
          rw [hs] at h
          cases e <;> simp at h
        | ok a =>
          rw [hs] at h
          rw [ih _ _ h (fun w hw => hskip w (List.mem_cons_of_mem _ hw))]
          exact getD_set_ne _ _ _ hik
      · exact ih _ _ h (fun w hw => hskip w (List.mem_cons_of_mem _ hw))

/-- If the loop processes a populate-condition-satisfying pair `(k, v)`
and no later pair has index `k`, slot `k` of the result holds the
parsed access. -/
theorem fillSlots_hit_getD (labels : List String) (k : Nat) (v : String)
    (d : Object) :
    ∀ (ps qs : List (Nat × String)) (objs t : Txn),
      fillSlots labels (ps ++ (k, v) :: qs) objs = .ok t →
      (∀ w, ¬((k, w) ∈ qs)) →
      v ≠ "" → (isReadCol labels k || isWriteCol labels k) = true →
      k < objs.length →
      ∃ a, stoul v = .ok a
        ∧ t.getD k d = ⟨true, isWriteCol labels k, a⟩ := by
  intro ps qs objs t h hq hv hm hk
  rw [fillSlots_append] at h
  cases hps : fillSlots labels ps objs with
  | error e => rw [hps] at h; simp at h
  | ok o1 =>
    rw [hps] at h
    simp only [fillSlots] at h
    rw [if_pos ⟨hv, hm⟩] at h
    cases hs : stoul v with
    | error e =>
      rw [hs] at h
      cases e <;> simp at h
    | ok a =>
      rw [hs] at h
      refine ⟨a, rfl, ?_⟩
      rw [fillSlots_skip_getD labels k d qs _ t h
        (fun w hw => absurd hw (hq w))]
      exact getD_set_self _ _ _
        (by rw [fillSlots_length labels ps objs o1 hps]; exact hk)

/-- Splitting `l.enum` at position `k`: the pair `(k, l.getD k d)` sits
between the pairs of smaller and of larger index. -/
theorem enum_split {α : Type} (l : List α) (k : Nat) (d : α)
    (h : k < l.length) :
    ∃ ps qs, l.enum = ps ++ (k, l.getD k d) :: qs ∧ ∀ p ∈ qs, k < p.1 := by
  have hk : k < l.enum.length := by rw [List.enum_length]; exact h
  refine ⟨l.enum.take k, l.enum.drop (k + 1), ?_, ?_⟩
  · conv_lhs => rw [← List.take_append_drop k l.enum]
    congr 1
    rw [← List.getElem_cons_drop l.enum k hk]
    congr 1
    rw [List.getElem_enum, List.getD_eq_getElem _ _ h]
  · intro p hp
    obtain ⟨m, hm, hpm⟩ := List.mem_iff_getElem.mp hp
    rw [List.getElem_drop] at hpm
    have hbound : k + 1 + m < l.enum.length := by
      rw [List.length_drop] at hm
      omega
    rw [List.getElem_enum] at hpm
    rw [← hpm]
    omega

/-- Slot-level characterization of one parsed content line: slot
`k < 16` is populated from its cell exactly when the cell (among the
first 16 tokens) is non-empty and its column is marked; every other
slot keeps the pre-existing array contents. -/
theorem parseTokens_getD_char (labels tokens : List String)
    (init : Nat → Object) (t : Txn)
    (h : parseTokens labels tokens init = .ok t) (k : Nat) (hk : k < 16) :
    (¬(((tokens.take numObjects).getD k "") ≠ ""
        ∧ (isReadCol labels k || isWriteCol labels k))
      → t.getD k dObj = init k)
    ∧ ((((tokens.take numObjects).getD k "") ≠ ""
        ∧ (isReadCol labels k || isWriteCol labels k))
      → ∃ a, stoul ((tokens.take numObjects).getD k "") = .ok a
          ∧ t.getD k dObj = ⟨true, isWriteCol labels k, a⟩) := by
  constructor
  · intro hno
    rw [parseTokens] at h
    have hskip := fillSlots_skip_getD labels k dObj _ _ _ h ?_
    · rw [hskip]
      exact freshObjs_getD init dObj hk
    · intro v hv
      have hvk : (tokens.take numObjects)[k]? = some v :=
        List.mem_enum_iff_getElem?.mp hv
      have hvd : (tokens.take numObjects).getD k "" = v := by
        rw [List.getD_eq_getElem?_getD, hvk]
        rfl
      rw [← hvd]
      exact hno
  · intro hyes
    have hklen : k < (tokens.take numObjects).length := by
      by_contra hge
      have : (tokens.take numObjects).getD k "" = "" :=
        List.getD_eq_default _ _ (by omega)
      exact hyes.1 this
    obtain ⟨ps, qs, hsplit, hqs⟩ := enum_split (tokens.take numObjects) k "" hklen
    rw [parseTokens, hsplit] at h
    exact fillSlots_hit_getD labels k _ dObj ps qs _ t h
      (fun w hw => by have := hqs (k, w) hw; omega)
      hyes.1 hyes.2 (by rw [freshObjs_length]; exact hk)

/-- The length of a successfully parsed line is the slot capacity 16. -/
theorem parseTokens_length (labels tokens : List String)
    (init : Nat → Object) (t : Txn)
    (h : parseTokens labels tokens init = .ok t) : t.length = 16 := by
  rw [parseTokens] at h
  rw [fillSlots_length _ _ _ _ h, freshObjs_length]

/-- **C2** — Loading a structured file that opens (header `header`,
content lines `content`) and succeeds produces exactly one transaction
per content line, in file order; for each line only the first 16
comma-separated cells are considered, and slot `k < 16` is set valid —
with write flag true iff the column's label begins with the designated
write prefix and object equal to the parsed value — exactly when column
`k` is a read- or write-marked column and its cell is non-empty; every
other slot keeps the indeterminate initial array contents. -/
theorem c2_structured_load (header : String) (content : List String)
    (init : Nat → Object) (L : List Txn)
    (h : loadFile ⟨header :: content⟩ init = .ok L) :
    L.length = content.length
    ∧ ∀ m, m < content.length →
        parseLine (getlineSplit header) (content.getD m "") init
            = .ok (L.getD m [])
        ∧ (L.getD m []).length = 16
        ∧ ∀ k, k < 16 →
            (((((getlineSplit (content.getD m "")).take numObjects).getD k "")
                  ≠ ""
                ∧ (isReadCol (getlineSplit header) k
                    || isWriteCol (getlineSplit header) k))
              → ∃ a,
                  stoul (((getlineSplit (content.getD m "")).take
                      numObjects).getD k "") = .ok a
                  ∧ (L.getD m []).getD k dObj
                      = ⟨true, isWriteCol (getlineSplit header) k, a⟩)
            ∧ (¬(((((getlineSplit (content.getD m "")).take
                      numObjects).getD k "") ≠ "")
                  ∧ (isReadCol (getlineSplit header) k
                      || isWriteCol (getlineSplit header) k))
              → (L.getD m []).getD k dObj = init k) := by
  have hmap : content.mapM
      (fun line => parseLine (getlineSplit header) line init) = .ok L := h
  obtain ⟨hlen, hm⟩ := mapM_ok_char _ content L hmap
  refine ⟨hlen, ?_⟩
  intro m hmlt
  have hline := hm m "" [] hmlt
  have hchar := parseTokens_getD_char (getlineSplit header)
    (getlineSplit (content.getD m "")) init (L.getD m []) hline
  refine ⟨hline, parseTokens_length _ _ _ _ hline, ?_⟩
  intro k hk
  exact ⟨(hchar k hk).2, (hchar k hk).1⟩

/-! ### Driver-level unfolding lemmas -/

theorem mainRun_files (a : Option FileRep) (args : List (Option FileRep))
    (init : Nat → Object) :
    mainRun (a :: args) init
      = match loadAll (a :: args) init with
        | .error e => (some (exitCode e), [])
        | .ok tests => (none, dispatch tests) := rfl

theorem loadAll_cons (f : FileRep) (rest : List (Option FileRep))
    (init : Nat → Object) :
    loadAll (some f :: rest) init
      = match loadFile f init with
        | .error e => .error e
        | .ok L => (loadAll rest init).map (fun M => L ++ M) := by
  rw [loadAll, List.mapM_cons]
  cases hf : loadFile f init with
  | error e =>
    simp [loadArg, hf, Bind.bind, Except.bind, Except.map]
  | ok L =>
    rw [loadAll]
    cases hr : rest.mapM (loadArg init) with
    | error e =>
      simp [loadArg, hf, hr, Bind.bind, Except.bind, Except.map]
    | ok Ls =>
      simp [loadArg, hf, hr, Bind.bind, Except.bind, Except.map, pure,
        Except.pure]

theorem loadAll_singleton (f : FileRep) (init : Nat → Object) :
    loadAll [some f] init = loadFile f init := by
  rw [loadAll_cons]
  cases hf : loadFile f init with
  | error e => rfl
  | ok L =>
    have h0 : loadAll [] init = .ok ([] : List Txn) := rfl
    rw [h0]
    simp [Except.map]

/-- **C6** — Fatal loader conditions terminate the run with the distinct
exit codes 1 (file cannot be opened), 2 (no header line), 3 (malformed
address), 4 (out-of-range address), and in every fatal case no
transaction at all is submitted. -/
theorem c6_exit_codes (rest : List (Option FileRep)) (init : Nat → Object) :
    mainRun (none :: rest) init = (some 1, [])
    ∧ mainRun (some ⟨[]⟩ :: rest) init = (some 2, [])
    ∧ mainRun (some ⟨["Read object", "abc"]⟩ :: rest) init = (some 3, [])
    ∧ mainRun (some ⟨["Read object", "99999999999999999999"]⟩ :: rest) init
        = (some 4, [])
    ∧ ∀ (args : List (Option FileRep)) (e : LoadError),
        loadAll args init = .error e →
        mainRun args init = (some (exitCode e), []) := by
  refine ⟨rfl, rfl, rfl, rfl, ?_⟩
  intro args e h
  cases args with
  | nil =>
    have h0 : loadAll [] init = .ok [] := rfl
    rw [h0] at h
    simp at h
  | cons a as =>
    rw [mainRun_files, h]

/-- Witness for C6: each fatal case evaluated with no further arguments
and zero memory, plus the generic no-submission conjunct applied to the
missing-header file. -/
theorem c6_exit_codes_witness :
    mainRun [none] zeroMem = (some 1, [])
    ∧ mainRun [some ⟨[]⟩] zeroMem = (some (exitCode .missingHeader), []) :=
  ⟨(c6_exit_codes [] zeroMem).1,
   (c6_exit_codes [] zeroMem).2.2.2.2 [some ⟨[]⟩] .missingHeader rfl⟩

/-- **C5** — The claim that every never-populated slot has
`valid = false` fails on the code: the slot array is default-initialized
(`std::array<Object, numObjects> objs;`), so unpopulated slots keep the
indeterminate pre-existing memory.  For a file whose header has no
recognized labels, the produced transaction is exactly the untouched
initial array; with nonzero pre-existing memory its slot 0 is a valid
write access, not an invalid slot. -/
theorem c5_uninitialized_slots :
    loadFile ⟨["foo", "5"]⟩ garbageMem = .ok [freshObjs garbageMem]
    ∧ ((freshObjs garbageMem).getD 0 dObj).valid = true
    ∧ (freshObjs garbageMem).getD 0 dObj = ⟨true, true, 100⟩ := by
  refine ⟨rfl, rfl, rfl⟩

/-- Witness instantiation of C2 on a concrete three-column file. -/
theorem c2_structured_load_witness :
    loadFile ⟨["Read object 0,x,Written object 2", "10,zz,20"]⟩ zeroMem
        = .ok [((freshObjs zeroMem).set 0 ⟨true, false, 10⟩).set 2
            ⟨true, true, 20⟩]
    ∧ ([((freshObjs zeroMem).set 0 ⟨true, false, 10⟩).set 2
          ⟨true, true, 20⟩] : List Txn).length
        = (["10,zz,20"] : List String).length :=
  ⟨rfl,
   (c2_structured_load "Read object 0,x,Written object 2" ["10,zz,20"]
      zeroMem _ rfl).1⟩

/-! ### Unmarked columns (C10) -/

theorem take_set {α : Type} (l : List α) (k n : Nat) (v : α) :
    (l.set k v).take n = (l.take n).set k v := by
  apply List.ext_getElem?
  intro m
  by_cases hkm : k = m
  · subst hkm
    by_cases hmn : k < n <;> by_cases hkl : k < l.length <;>
      simp [List.getElem?_take, List.getElem?_set, hmn, hkl,
        List.length_take]
  · by_cases hmn : m < n <;>
      simp [List.getElem?_take, List.getElem?_set, hkm, hmn]

/-- Replacing the token at an unmarked column does not change the result
of the per-line loop: the populate-condition is false there for every
cell value. -/
theorem fillSlots_set_unmarked (labels : List String) (v : String) :
    ∀ (tokens : List String) (k n : Nat) (objs : Txn),
      isReadCol labels (n + k) = false → isWriteCol labels (n + k) = false →
      fillSlots labels ((tokens.set k v).enumFrom n) objs
        = fillSlots labels (tokens.enumFrom n) objs := by
  intro tokens
  induction tokens with
  | nil => intro k n objs _ _; rfl
  | cons t ts ih =>
    intro k n objs hr hw
    cases k with
    | zero =>
      rw [List.set_cons_zero, List.enumFrom_cons, List.enumFrom_cons]
      rw [Nat.add_zero] at hr hw
      have hmf : (isReadCol labels n || isWriteCol labels n) = false := by
        rw [hr, hw]; rfl
      simp only [fillSlots]
      rw [if_neg (fun hcon => by rw [hmf] at hcon; exact absurd hcon.2 (by simp)),
        if_neg (fun hcon => by rw [hmf] at hcon; exact absurd hcon.2 (by simp))]
    | succ k =>
      rw [List.set_cons_succ, List.enumFrom_cons, List.enumFrom_cons]
      have he : n + 1 + k = n + (k + 1) := by omega
      have hr' : isReadCol labels (n + 1 + k) = false := by rw [he]; exact hr
      have hw' : isWriteCol labels (n + 1 + k) = false := by rw [he]; exact hw
      simp only [fillSlots]
      split
      · cases hs : stoul t with
        | error e => cases e <;> rfl
        | ok a => exact ih k (n + 1) _ hr' hw'
      · exact ih k (n + 1) objs hr' hw'

/-- **C10** — A cell at a column that is neither read- nor write-marked
is skipped without any address-parse attempt: replacing it by arbitrary
text (`tokens.set k v`) never changes the outcome of parsing the line
— in particular it can cause neither the malformed-address nor the
out-of-range failure — and the corresponding slot is never populated. -/
theorem c10_unmarked_columns_ignored (labels tokens : List String) (k : Nat)
    (v : String) (init : Nat → Object)
    (hr : isReadCol labels k = false) (hw : isWriteCol labels k = false)
    (hk : k < 16) :
    parseTokens labels (tokens.set k v) init = parseTokens labels tokens init
    ∧ ∀ t, parseTokens labels tokens init = .ok t →
        t.getD k dObj = init k := by
  constructor
  · rw [parseTokens, parseTokens, take_set]
    show fillSlots labels (((tokens.take numObjects).set k v).enumFrom 0)
        (freshObjs init)
      = fillSlots labels ((tokens.take numObjects).enumFrom 0) (freshObjs init)
    have hr0 : isReadCol labels (0 + k) = false := by rw [Nat.zero_add]; exact hr
    have hw0 : isWriteCol labels (0 + k) = false := by rw [Nat.zero_add]; exact hw
    exact fillSlots_set_unmarked labels v (tokens.take numObjects) k 0
      (freshObjs init) hr0 hw0
  · intro t ht
    rw [parseTokens] at ht
    rw [fillSlots_skip_getD labels k dObj _ _ _ ht ?_]
    · exact freshObjs_getD init dObj hk
    · intro w _ hcon
      rw [hr, hw] at hcon
      exact absurd hcon.2 (by simp)

/-- Witness for C10: arbitrary text in an unmarked column of a concrete
two-column line. -/
theorem c10_unmarked_columns_ignored_witness :
    parseTokens ["Read object"] (["1", "XX"].set 1 "%%") zeroMem
        = parseTokens ["Read object"] ["1", "XX"] zeroMem
    ∧ ((freshObjs zeroMem).set 0 ⟨true, false, 1⟩).getD 1 dObj = zeroMem 1 :=
  ⟨(c10_unmarked_columns_ignored ["Read object"] ["1", "XX"] 1 "%%" zeroMem
      rfl rfl (by omega)).1,
   (c10_unmarked_columns_ignored ["Read object"] ["1", "XX"] 1 "%%" zeroMem
      rfl rfl (by omega)).2 _ rfl⟩

/-! ### stoul classification (C7) -/

theorem stoul_error_invalid_iff (v : String) :
    stoul v = .error .invalidArgument ↔ stoulDigits v = [] := by
  by_cases h1 : (stoulDigits v).isEmpty = true
  · rw [stoul, if_pos h1]
    simp [List.isEmpty_iff.mp h1]
  · have hne : stoulDigits v ≠ [] := by
      intro hc
      exact h1 (List.isEmpty_iff.mpr hc)
    rw [stoul, if_neg h1]
    constructor
    · intro h
      split at h <;> exact absurd h (by simp)
    · intro h
      exact absurd h hne

theorem stoul_error_range_iff (v : String) :
    stoul v = .error .outOfRange
      ↔ stoulDigits v ≠ [] ∧ ULONG_MAX < digitsVal (stoulDigits v) := by
  by_cases h1 : (stoulDigits v).isEmpty = true
  · rw [stoul, if_pos h1]
    simp [List.isEmpty_iff.mp h1]
  · have hne : stoulDigits v ≠ [] := by
      intro hc
      exact h1 (List.isEmpty_iff.mpr hc)
    rw [stoul, if_neg h1]
    by_cases h2 : ULONG_MAX < digitsVal (stoulDigits v)
    · rw [if_pos h2]
      simp [hne, h2]
    · rw [if_neg h2]
      simp [h2]

theorem digit_not_cspace (c : Char) (h : c.isDigit = true) :
    isCSpace c = false := by
  cases hb : isCSpace c
  · rfl
  · exfalso
    rw [isCSpace] at hb
    simp only [Bool.or_eq_true, decide_eq_true_eq] at hb
    rcases hb with ((((rfl | rfl) | rfl) | rfl) | rfl) | rfl <;>
      exact absurd h (by decide)

theorem stoulBody_all_digits (v : String) (hne : v.toList ≠ [])
    (hdig : v.toList.all Char.isDigit = true) :
    stoulBody v = (false, v.toList) := by
  have hdrop : v.toList.dropWhile isCSpace = v.toList := by
    cases hv : v.toList with
    | nil => rfl
    | cons c cs =>
      rw [List.dropWhile_cons]
      have hc : c.isDigit = true := by
        rw [hv, List.all_cons, Bool.and_eq_true] at hdig
        exact hdig.1
      rw [digit_not_cspace c hc]
      simp
  rw [stoulBody, hdrop]
  cases hv : v.toList with
  | nil => exact absurd hv hne
  | cons c cs =>
    have hc : c.isDigit = true := by
      rw [hv, List.all_cons, Bool.and_eq_true] at hdig
      exact hdig.1
    split
    · next rest heq =>
        injection heq with h1 h2
        rw [h1] at hc
        exact absurd hc (by decide)
    · next rest heq =>
        injection heq with h1 h2
        rw [h1] at hc
        exact absurd hc (by decide)
    · rfl

/-- Accumulating decimal digits left to right computes the usual
base-10 value of the digit string. -/
theorem foldl_digits_ofDigits (dv : Char → Nat) :
    ∀ (ds : List Char) (acc : Nat),
      ds.foldl (fun a c => a * 10 + dv c) acc
        = acc * 10 ^ ds.length + Nat.ofDigits 10 ((ds.map dv).reverse) := by
  intro ds
  induction ds with
  | nil => intro acc; simp [Nat.ofDigits_nil]
  | cons c ds ih =>
    intro acc
    rw [List.foldl_cons, ih, List.map_cons, List.reverse_cons,
      Nat.ofDigits_append, Nat.ofDigits_singleton, List.length_cons,
      List.length_reverse, List.length_map]
    ring

theorem stoul_all_digits (v : String) (hne : v.toList ≠ [])
    (hdig : v.toList.all Char.isDigit = true)
    (hbound : Nat.ofDigits 10
        ((v.toList.map (fun c => c.toNat - '0'.toNat)).reverse) ≤ ULONG_MAX) :
    stoul v = .ok (Nat.ofDigits 10
      ((v.toList.map (fun c => c.toNat - '0'.toNat)).reverse)) := by
  have hbody : stoulBody v = (false, v.toList) := stoulBody_all_digits v hne hdig
  have hds : stoulDigits v = v.toList := by
    rw [stoulDigits, hbody]
    exact List.takeWhile_eq_self_iff.mpr (List.all_eq_true.mp hdig)
  have hval : digitsVal (stoulDigits v)
      = Nat.ofDigits 10 ((v.toList.map (fun c => c.toNat - '0'.toNat)).reverse) := by
    rw [hds, digitsVal, foldl_digits_ofDigits]
    simp
  rw [stoul, if_neg ?hem, if_neg ?hrg]
  case hem =>
    rw [hds]
    simp only [List.isEmpty_iff]
    exact hne
  case hrg =>
    rw [hval]
    omega
  rw [hbody, hval]
  simp

/-- Parsing a single-cell line under a read-marked single-column header:
the one cell is parsed with `stoul` and stored at slot 0, or the
corresponding fatal condition is raised. -/
theorem parseLine_single_cell (v : String) (hv : getlineSplit v = [v])
    (init : Nat → Object) :
    parseLine ["Read object"] v init
      = match stoul v with
        | .error .invalidArgument => .error .malformedAddress
        | .error .outOfRange => .error .addressOutOfRange
        | .ok a => .ok ((freshObjs init).set 0 ⟨true, false, a⟩) := by
  have hvne : v ≠ "" := by
    intro h
    rw [h] at hv
    exact absurd hv (by decide)
  rw [parseLine, hv, parseTokens]
  show fillSlots ["Read object"] [(0, v)] (freshObjs init) = _
  simp only [fillSlots]
  rw [if_pos ⟨hvne, rfl⟩]
  cases hs : stoul v with
  | error e => cases e <;> rfl
  | ok a => rfl

/-- **C7 (counterexample)** — the cell `"1x"` is not a decimal numeral
(not a valid unsigned integer), yet the loader does not fail with
`MalformedAddress`: `std::stoul` parses the leading digit run and the
run completes normally, storing object 1. -/
theorem c7_counterexample_trailing_garbage :
    ("1x".toList.all Char.isDigit) = false
    ∧ mainRun [some ⟨["Read object", "1x"]⟩] zeroMem
        = (none, dispatch [(freshObjs zeroMem).set 0 ⟨true, false, 1⟩]) :=
  ⟨rfl, rfl⟩

/-- **C7 (amended)** — For a non-empty single-cell content line at a
read-marked column, the loader fails with exit code 3 iff `stoul` finds
no leading digit run (after optional whitespace and sign), fails with
exit code 4 iff the digit run's value exceeds `ULONG_MAX = 2^64 - 1`,
and otherwise stores the `stoul` value; for a cell that is a plain
decimal numeral within range, that value is exactly the numeral's
base-10 value. -/
theorem c7_address_parse_classification (v : String)
    (hv : getlineSplit v = [v]) :
    (mainRun [some ⟨["Read object", v]⟩] zeroMem
      = match stoul v with
        | .error .invalidArgument => (some 3, [])
        | .error .outOfRange => (some 4, [])
        | .ok a => (none, dispatch [(freshObjs zeroMem).set 0 ⟨true, false, a⟩]))
    ∧ (stoul v = .error .invalidArgument ↔ stoulDigits v = [])
    ∧ (stoul v = .error .outOfRange
        ↔ stoulDigits v ≠ [] ∧ ULONG_MAX < digitsVal (stoulDigits v))
    ∧ (v.toList.all Char.isDigit = true →
        Nat.ofDigits 10 ((v.toList.map (fun c => c.toNat - '0'.toNat)).reverse)
            ≤ ULONG_MAX →
        stoul v = .ok (Nat.ofDigits 10
          ((v.toList.map (fun c => c.toNat - '0'.toNat)).reverse))) := by
  have hvne : v ≠ "" := by
    intro h
    rw [h] at hv
    exact absurd hv (by decide)
  refine ⟨?_, stoul_error_invalid_iff v, stoul_error_range_iff v, ?_⟩
  · have hp := parseLine_single_cell v hv zeroMem
    have hl : getlineSplit "Read object" = ["Read object"] := rfl
    cases hs : stoul v with
    | error e =>
      rw [hs] at hp
      cases e with
      | invalidArgument =>
        have hp' : parseLine ["Read object"] v zeroMem
            = .error .malformedAddress := hp
        have hload : loadFile ⟨["Read object", v]⟩ zeroMem
            = .error .malformedAddress := by
          show [v].mapM
              (fun line => parseLine (getlineSplit "Read object") line zeroMem)
            = _
          rw [List.mapM_cons]
          simp only [hl]
          rw [hp']
          rfl
        rw [mainRun_files, loadAll_singleton, hload]
        rfl
      | outOfRange =>
        have hp' : parseLine ["Read object"] v zeroMem
            = .error .addressOutOfRange := hp
        have hload : loadFile ⟨["Read object", v]⟩ zeroMem
            = .error .addressOutOfRange := by
          show [v].mapM
              (fun line => parseLine (getlineSplit "Read object") line zeroMem)
            = _
          rw [List.mapM_cons]
          simp only [hl]
          rw [hp']
          rfl
        rw [mainRun_files, loadAll_singleton, hload]
        rfl
    | ok a =>
      rw [hs] at hp
      have hp' : parseLine ["Read object"] v zeroMem
          = .ok ((freshObjs zeroMem).set 0 ⟨true, false, a⟩) := hp
      have hload : loadFile ⟨["Read object", v]⟩ zeroMem
          = .ok [(freshObjs zeroMem).set 0 ⟨true, false, a⟩] := by
        show [v].mapM
            (fun line => parseLine (getlineSplit "Read object") line zeroMem)
          = _
        rw [List.mapM_cons]
        simp only [hl]
        rw [hp']
        rfl
      rw [mainRun_files, loadAll_singleton, hload]
  · intro hdig hbound
    have hne : v.toList ≠ [] := by
      intro hl
      exact hvne (by
        have : v.data = "".data := hl
        cases v
        simp at this
        rw [this])
    exact stoul_all_digits v hne hdig hbound

/-- Witness for the amended C7 at the plain numeral cell `"12"`. -/
theorem c7_address_parse_classification_witness :
    getlineSplit "12" = ["12"]
    ∧ mainRun [some ⟨["Read object", "12"]⟩] zeroMem
        = (none, dispatch [(freshObjs zeroMem).set 0 ⟨true, false, 12⟩]) :=
  ⟨rfl, (c7_address_parse_classification "12" rfl).1⟩

/-! ### Two loads of the same file (C8) -/

theorem enum_getD {α : Type} (l : List α) (m : Nat) (d : α)
    (hm : m < l.length) : l.enum.getD m (0, d) = (m, l.getD m d) := by
  have hm' : m < l.enum.length := by rw [List.enum_length]; exact hm
  rw [List.getD_eq_getElem _ _ hm', List.getElem_enum,
    List.getD_eq_getElem _ _ hm]

theorem mapM_enumFrom_const {ε α β : Type} (g : α → Except ε β) :
    ∀ (l : List α) (n : Nat),
      (l.enumFrom n).mapM (fun p => g p.2) = l.mapM g := by
  intro l
  induction l with
  | nil => intro n; rfl
  | cons x xs ih =>
    intro n
    rw [List.enumFrom_cons, List.mapM_cons, List.mapM_cons, ih]

/-- With constant (aligned) memory, the per-line-memory loader is the
single-`init` loader. -/
theorem loadFileMem_const (f : FileRep) (init : Nat → Object) :
    loadFileMem f (fun _ => init) = loadFile f init := by
  obtain ⟨lines⟩ := f
  cases lines with
  | nil => rfl
  | cons header content =>
    show (content.enumFrom 0).mapM
        (fun p => parseLine (getlineSplit header) p.2 init)
      = content.mapM (fun line => parseLine (getlineSplit header) line init)
    exact mapM_enumFrom_const
      (fun line => parseLine (getlineSplit header) line init) content 0

theorem loadAllMem_const (args : List (Option FileRep))
    (init : Nat → Object) :
    loadAllMem args (fun _ _ => init) = loadAll args init := by
  rw [loadAllMem, loadAll]
  have hfun : (fun (p : Nat × Option FileRep) =>
        loadArgMem (fun _ => init) p.2)
      = fun (p : Nat × Option FileRep) => loadArg init p.2 := by
    funext p
    cases hp : p.2 with
    | none => rfl
    | some f => exact loadFileMem_const f init
  show ((args.enumFrom 0).mapM
      (fun p => loadArgMem (fun _ => init) p.2)).map List.flatten = _
  rw [hfun, mapM_enumFrom_const (loadArg init) args 0]

theorem mainRunMem_const (args : List (Option FileRep))
    (init : Nat → Object) :
    mainRunMem args (fun _ _ => init) = mainRun args init := by
  cases args with
  | nil => rfl
  | cons a as =>
    rw [mainRun_files]
    show (match loadAllMem (a :: as) (fun _ _ => init) with
      | .error e => (some (exitCode e), [])
      | .ok tests => (none, dispatch tests)) = _
    rw [loadAllMem_const]

theorem mainRunMem_files (a : Option FileRep) (args : List (Option FileRep))
    (mem : Nat → Nat → Nat → Object) :
    mainRunMem (a :: args) mem
      = match loadAllMem (a :: args) mem with
        | .error e => (some (exitCode e), [])
        | .ok tests => (none, dispatch tests) := rfl

/-- A successful per-line-memory load produces one transaction per
content line, in order, each parsed from its own fresh-array memory. -/
theorem loadFileMem_char (header : String) (content : List String)
    (mem : Nat → Nat → Object) (L : List Txn)
    (h : loadFileMem ⟨header :: content⟩ mem = .ok L) :
    L.length = content.length
    ∧ ∀ m, m < content.length →
        parseLine (getlineSplit header) (content.getD m "") (mem m)
          = .ok (L.getD m []) := by
  have hmap : content.enum.mapM
      (fun p => parseLine (getlineSplit header) p.2 (mem p.1)) = .ok L := h
  obtain ⟨hlen, hm⟩ := mapM_ok_char _ content.enum L hmap
  rw [List.enum_length] at hlen
  refine ⟨hlen, ?_⟩
  intro m hmlt
  have hm' := hm m (0, "") [] (by rw [List.enum_length]; exact hmlt)
  rw [enum_getD content m "" hmlt] at hm'
  exact hm'

theorem loadAllMem_pair (f g : FileRep) (mem : Nat → Nat → Nat → Object)
    (L1 L2 : List Txn)
    (h1 : loadFileMem f (mem 0) = .ok L1)
    (h2 : loadFileMem g (mem 1) = .ok L2) :
    loadAllMem [some f, some g] mem = .ok (L1 ++ L2) := by
  show (([(0, some f), (1, some g)] : List (Nat × Option FileRep)).mapM
      (fun p => loadArgMem (mem p.1) p.2)).map List.flatten = _
  rw [List.mapM_cons, List.mapM_cons, List.mapM_nil]
  have ha1 : loadArgMem (mem 0) (some f) = .ok L1 := h1
  have ha2 : loadArgMem (mem 1) (some g) = .ok L2 := h2
  simp [ha1, ha2, Bind.bind, Except.bind, pure, Except.pure, Except.map]

/-- **C8 (counterexample)** — with the same one-line file passed twice
and the two loads' fresh arrays holding different (independently
indeterminate) pre-existing memory, the two produced copies are *not*
equal slot-by-slot: they agree on the one populated slot but differ at
the unpopulated slot 1, so the claimed identical subsequences are not
guaranteed by the program. -/
theorem c8_counterexample_independent_memory :
    mainRunMem [some ⟨["Read object", "3"]⟩, some ⟨["Read object", "3"]⟩]
        memIndep
      = (none, dispatch [(freshObjs zeroMem).set 0 ⟨true, false, 3⟩,
          (freshObjs garbageMem).set 0 ⟨true, false, 3⟩])
    ∧ (freshObjs zeroMem).set 0 ⟨true, false, 3⟩
        ≠ (freshObjs garbageMem).set 0 ⟨true, false, 3⟩
    ∧ ((freshObjs zeroMem).set 0 ⟨true, false, 3⟩).getD 1 dObj
        ≠ ((freshObjs garbageMem).set 0 ⟨true, false, 3⟩).getD 1 dObj := by
  refine ⟨rfl, ?_, ?_⟩ <;> decide

/-- **C8 (amended)** — Passing the same well-formed file twice yields
two transaction subsequences of equal length (one per content line, in
the same relative order) that agree slot-by-slot on every populated
slot (marked column, non-empty cell: same validity, write flag and
object in both copies), submitted with ids continuing consecutively
from 0 through both copies; an unpopulated slot keeps its own copy's
independently indeterminate fresh-array memory, so the copies need not
coincide there (the C5 bug). -/
theorem c8_same_file_twice_populated (header : String)
    (content : List String) (mem : Nat → Nat → Nat → Object)
    (L1 L2 : List Txn)
    (h1 : loadFileMem ⟨header :: content⟩ (mem 0) = .ok L1)
    (h2 : loadFileMem ⟨header :: content⟩ (mem 1) = .ok L2) :
    mainRunMem [some ⟨header :: content⟩, some ⟨header :: content⟩] mem
        = (none, dispatch (L1 ++ L2))
    ∧ L1.length = content.length
    ∧ L2.length = content.length
    ∧ (L1 ++ L2).take L1.length = L1
    ∧ (L1 ++ L2).drop L1.length = L2
    ∧ (dispatch (L1 ++ L2)).map Prod.fst
        = List.range (L1.length + L2.length)
    ∧ (dispatch (L1 ++ L2)).map Prod.snd = L1 ++ L2
    ∧ ∀ m k, m < content.length → k < 16 →
        (((((getlineSplit (content.getD m "")).take numObjects).getD k "")
              ≠ ""
            ∧ (isReadCol (getlineSplit header) k
                || isWriteCol (getlineSplit header) k))
          → (L1.getD m []).getD k dObj = (L2.getD m []).getD k dObj)
        ∧ (¬((((getlineSplit (content.getD m "")).take numObjects).getD k "")
              ≠ ""
            ∧ (isReadCol (getlineSplit header) k
                || isWriteCol (getlineSplit header) k))
          → (L1.getD m []).getD k dObj = mem 0 m k
            ∧ (L2.getD m []).getD k dObj = mem 1 m k) := by
  obtain ⟨hlen1, hchar1⟩ := loadFileMem_char header content (mem 0) L1 h1
  obtain ⟨hlen2, hchar2⟩ := loadFileMem_char header content (mem 1) L2 h2
  have hload := loadAllMem_pair _ _ mem L1 L2 h1 h2
  refine ⟨?_, hlen1, hlen2, List.take_left L1 L2, List.drop_left L1 L2,
    ?_, ?_, ?_⟩
  · rw [mainRunMem_files, hload]
  · show ((L1 ++ L2).enum.map Prod.fst) = List.range (L1.length + L2.length)
    rw [List.enum_map_fst, List.length_append]
  · exact List.enum_map_snd (L1 ++ L2)
  · intro m k hm hk
    have hc1 := parseTokens_getD_char (getlineSplit header)
      (getlineSplit (content.getD m "")) (mem 0 m) (L1.getD m [])
      (hchar1 m hm) k hk
    have hc2 := parseTokens_getD_char (getlineSplit header)
      (getlineSplit (content.getD m "")) (mem 1 m) (L2.getD m [])
      (hchar2 m hm) k hk
    constructor
    · intro hyes
      obtain ⟨a1, hs1, hv1⟩ := hc1.2 hyes
      obtain ⟨a2, hs2, hv2⟩ := hc2.2 hyes
      have ha : a1 = a2 := by
        have h12 := hs1.symm.trans hs2
        injection h12
      rw [hv1, hv2, ha]
    · intro hno
      exact ⟨hc1.1 hno, hc2.1 hno⟩

/-- Witness for the amended C8 on a concrete one-line file with the two
copies' fresh arrays resolved to different memory. -/
theorem c8_same_file_twice_populated_witness :
    loadFileMem ⟨["Read object", "3"]⟩ (memIndep 0)
        = .ok [(freshObjs zeroMem).set 0 ⟨true, false, 3⟩]
    ∧ loadFileMem ⟨["Read object", "3"]⟩ (memIndep 1)
        = .ok [(freshObjs garbageMem).set 0 ⟨true, false, 3⟩]
    ∧ mainRunMem [some ⟨["Read object", "3"]⟩, some ⟨["Read object", "3"]⟩]
          memIndep
        = (none, dispatch ([(freshObjs zeroMem).set 0 ⟨true, false, 3⟩]
            ++ [(freshObjs garbageMem).set 0 ⟨true, false, 3⟩])) :=
  ⟨rfl, rfl,
   (c8_same_file_twice_populated "Read object" ["3"] memIndep
      [(freshObjs zeroMem).set 0 ⟨true, false, 3⟩]
      [(freshObjs garbageMem).set 0 ⟨true, false, 3⟩] rfl rfl).1⟩
